import Mathlib

/-!
Verification of the release-engineering core of the pulp/devel repository:
the `EVR` version value type of `pulp-dev/pulp_dev/releng_utils.py` and the
branch promotion chain of `pulp-dev/pulp_dev/git_workflow.py`.

Python strings are embedded as `List Char`; Python non-negative ints as `Nat`
(all ints arising here come from `int()` on digit strings, hence are
non-negative and unbounded, exactly like `Nat`); `None`-able values as
`Option`; raised exceptions as `Except` with an error enumeration naming the
distinct raise sites.

The two regular expressions of `releng_utils.py` and the branch regex of
`git_workflow.py` are embedded as executable functions whose semantics are
derived, case by case, from Python's leftmost/greedy backtracking matching;
each derivation is documented at the definition it justifies.
-/

namespace PulpDev

instance {ε α : Type} [DecidableEq ε] [DecidableEq α] : DecidableEq (Except ε α) := fun a b =>
  match a, b with
  | .error e, .error f =>
    if h : e = f then .isTrue (by rw [h]) else .isFalse (by simp [h])
  | .error _, .ok _ => .isFalse (by simp)
  | .ok _, .error _ => .isFalse (by simp)
  | .ok x, .ok y =>
    if h : x = y then .isTrue (by rw [h]) else .isFalse (by simp [h])

/-! ### Decimal numerals: Python `int(...)` on digit strings and `str(...)` of ints -/

/-- Numeric value of a decimal digit character. -/
def digitVal (c : Char) : Nat := c.toNat - 48

/-- The digit character of `n` (meaningful for `n < 10`). -/
def digitChar (n : Nat) : Char := Char.ofNat (48 + n)

/-- Python `int(s)` for a non-empty digit string (also accepts leading zeros). -/
def decVal (cs : List Char) : Nat := cs.foldl (fun a c => 10 * a + digitVal c) 0

/-- Fuel-driven decimal printer; fuel `n+1` always suffices for `n`. -/
def natToDecAux : Nat → Nat → List Char
  | 0, _ => []
  | fuel + 1, n => if n < 10 then [digitChar n] else natToDecAux fuel (n / 10) ++ [digitChar (n % 10)]

/-- Python `str(n)` / `'{}'.format(n)` for a non-negative int: decimal, no sign. -/
def natToDec (n : Nat) : List Char := natToDecAux (n + 1) n

/-- Maximal leading digit run of a string, with the remainder: the greedy
match of `\d+` (or `\d*`) at the current position. -/
def digitRun (cs : List Char) : List Char × List Char :=
  (cs.takeWhile Char.isDigit, cs.dropWhile Char.isDigit)

/-! ### The version regex

`EVR_VERSION_RE = '(?P<epoch>\d+)?(?:\:?)(?P<major>\d+)\.(?P<minor>\d+)(?:\.?)(?P<patch>\d+)?'`
used with `re.match` (anchored at the start only; trailing input is ignored).

Derived matching semantics (greedy with backtracking, documented case by case):
* after the mandatory `\.`, `minor` is the maximal digit run and must be
  non-empty; the following `(?:\.?)` consumes one `.` when present; `patch` is
  the maximal digit run there, possibly empty (`None`, defaulted to 0);
* `major` is a maximal digit run that must be followed by a literal `.`
  (a shorter greedy choice leaves a digit, which can never equal `.`);
* the optional `epoch` run and optional `:` interact with `major`:
  - if the input starts with digits `R` followed by `:`, the only way the rest
    of the pattern can match is `epoch = R` with the `:` consumed;
  - if the input starts with digits `R` followed by `.`: with `|R| ≥ 2` the
    greedy backtracking first succeeds at `epoch = R` minus its last digit and
    `major` = the last digit of `R` (taking all of `R` as epoch leaves `major`
    facing `.`); with `|R| = 1` the epoch group is skipped and `major = R`;
  - if the input starts with no digit, the epoch group is skipped and an
    optional `:` is consumed, after which `major` must begin.
Missing epoch and patch default to 0 (`int` conversion in `parse_version`). -/

/-- Semantics of `(?P<minor>\d+)(?:\.?)(?P<patch>\d+)?` (minor mandatory,
patch optional and defaulting to 0 as in `parse_version`). -/
def parseMinorPatch (cs : List Char) : Option (Nat × Nat) :=
  let mi := (digitRun cs).1
  let t := (digitRun cs).2
  if mi.isEmpty then none
  else
    let t1 := match t with
      | '.' :: u => u
      | u => u
    some (decVal mi, decVal (digitRun t1).1)

/-- Semantics of `(?P<major>\d+)\.(?P<minor>\d+)(?:\.?)(?P<patch>\d+)?`. -/
def parseMMP (cs : List Char) : Option (Nat × Nat × Nat) :=
  let ma := (digitRun cs).1
  let t := (digitRun cs).2
  if ma.isEmpty then none
  else match t with
    | '.' :: u => (parseMinorPatch u).map (fun mp => (decVal ma, mp.1, mp.2))
    | _ => none

/-- Semantics of `re.match(EVR_VERSION_RE, cs)` followed by the defaulting and
`int` conversion done in `EVR.parse_version`: `(epoch, major, minor, patch)`,
or `none` when the regex does not match (an `AttributeError` in Python). -/
def parseVersionChars (cs : List Char) : Option (Nat × Nat × Nat × Nat) :=
  let r := (digitRun cs).1
  let t := (digitRun cs).2
  if r.isEmpty then
    let t1 := match t with
      | ':' :: u => u
      | u => u
    (parseMMP t1).map (fun x => (0, x.1, x.2.1, x.2.2))
  else match t with
    | ':' :: u => (parseMMP u).map (fun x => (decVal r, x.1, x.2.1, x.2.2))
    | '.' :: u =>
      (parseMinorPatch u).map (fun mp =>
        match r with
        | [c] => (0, digitVal c, mp.1, mp.2)
        | _ => (decVal r.dropLast, decVal (r.drop (r.length - 1)), mp.1, mp.2))
    | _ => none

/-! ### The release regex

`EVR_RELEASE_RE = '(?P<major>\d+)(?:\.?)(?P<minor>\d+)?(?:\.?)(?P<stage>.+[^.])?'`
used with `re.match`. Everything after `major` is optional and the pattern is
not end-anchored, so no greedy choice is ever backtracked across a group
boundary: `major` is the maximal leading digit run (mandatory); each `(?:\.?)`
consumes one `.` when present; `minor` is the maximal digit run there (possibly
absent, defaulted to 0); `stage` is the match of `.+[^.]` at the remaining
position, or `None` when that cannot match. -/

/-- Semantics of `(?P<stage>.+[^.])?` at `cs`: `.` matches any character other
than `'\n'`, so the greedy `.+` takes the maximal newline-free prefix `r`.
If a `'\n'` follows `r` in `cs`, `[^.]` consumes it (a negated class does
match newline) and the group yields `r ++ ['\n']` (requires `r ≠ []`).
Otherwise `r = cs` and backtracking of `.+` yields the longest prefix of
length ≥ 2 whose last character is not `'.'`, i.e. `cs` with its trailing
dots removed, provided at least 2 characters remain. -/
def stageOf (cs : List Char) : Option (List Char) :=
  let r := cs.takeWhile (fun c => c ≠ '\n')
  if r.length < cs.length then
    if r.isEmpty then none else some (r ++ ['\n'])
  else
    let s := (cs.reverse.dropWhile (fun c => c = '.')).reverse
    if 2 ≤ s.length then some s else none

/-- The regex part of `EVR.parse_release`: `(major, minor, stage)` with the
`minor is None → 0` defaulting, or `none` when the regex does not match
(no leading digit; an `AttributeError` in Python). -/
def releaseMatch (cs : List Char) : Option (Nat × Nat × Option (List Char)) :=
  let ma := (digitRun cs).1
  let t := (digitRun cs).2
  if ma.isEmpty then none
  else
    let t1 := match t with
      | '.' :: u => u
      | u => u
    let mi := (digitRun t1).1
    let t2 := (digitRun t1).2
    let t3 := match t2 with
      | '.' :: u => u
      | u => u
    some (decVal ma, decVal mi, stageOf t3)

/-! ### The EVR value type -/

/-- The distinct failure modes of the embedded `EVR` code, one per `raise`
site (all are `ValueError` in Python except where noted). -/
inductive EvrErr where
  /-- `__init__`: `'Cannot create nightly EVR without commit hash.'` -/
  | configError
  /-- `__init__`: `'Invalid version string. ...'`, raised when a regex
  non-match surfaces as an `AttributeError` inside the `try` block. -/
  | invalidEvr
  /-- `parse_release`: `'Release major version must be 0 if stage is not release.'` -/
  | stageMajorError
  /-- `parse_release`: `'Release major version must be greater than 0 if stage is release.'` -/
  | gaMajorError
  /-- `next_stage`: `'Unknown self.r_stage: ...'` -/
  | unknownStage
  /-- `parse_release` on the literal `'nightly'`: `re.match` applied to the
  non-string `self.nightly_release` (a `TypeError`; unreachable from
  `__init__`, which replaces `'nightly'` before parsing). -/
  | typeError
  /-- `fromstring`: unpacking `rsplit('-', 1)` of a dash-free string into two
  names (a `ValueError: not enough values to unpack`). -/
  | unpackError
deriving DecidableEq, Repr

/-- The fields of an `EVR` instance. `rStage = none` is Python
`r_stage is None` (a GA release). -/
structure EVR where
  epoch : Nat
  vMajor : Nat
  vMinor : Nat
  vPatch : Nat
  rMajor : Nat
  rMinor : Nat
  rStage : Option (List Char)
  commit : Option (List Char)
deriving DecidableEq, Repr

/-- Python truthiness of an optional string (`None` and `''` are falsy). -/
def optTruthy : Option (List Char) → Bool
  | none => false
  | some s => ¬s.isEmpty

/-- Embeds the always-true test `major != '0'` in `EVR.parse_release`:
`major` has just been rebound to `int(major)`, and in Python an `int` never
equals a `str`, so this comparison cannot return `False`. -/
def intNeStrZero (_ : Nat) : Bool := true

/-- `EVR.parse_release` after the regex match: the stage/major checks.
`if stage and major != '0'` reduces to the truthiness of `stage` (see
`intNeStrZero`); a named stage (a key of `_PYTHON_STAGE_MAP`) then raises;
`elif not stage and major < 1` raises for a stage-less release 0. -/
def parseRelease (cs : List Char) : Except EvrErr (Nat × Nat × Option (List Char)) :=
  if cs = ("nightly".data) then .error .typeError
  else match releaseMatch cs with
    | none => .error .invalidEvr
    | some (ma, mi, st) =>
      if optTruthy st ∧ intNeStrZero ma then
        if st = some ("alpha".data) ∨ st = some ("beta".data) ∨ st = some ("rc".data) then
          .error .stageMajorError
        else .ok (ma, mi, st)
      else if ¬optTruthy st ∧ ma < 1 then .error .gaMajorError
      else .ok (ma, mi, st)

/-- The release string generated by `_build_nightly_release` for the given
`time.strftime('%Y%m%d%H%M')` result and commit hash:
`'0.0.n' + buildtime + 'git' + self.commit[0:7]`. -/
def nightlyStr (buildtime commitHash : List Char) : List Char :=
  ("0.0.n".data) ++ buildtime ++ ("git".data) ++ commitHash.take 7

/-- The parsing part of `EVR.__init__`: both regexes must match (else the
`AttributeError` handler raises the invalid-EVR `ValueError`), and
`parse_release`'s own `ValueError`s propagate unchanged. -/
def initParsed (ver rel : List Char) (commitHash : Option (List Char)) : Except EvrErr EVR :=
  match parseVersionChars ver with
  | none => .error .invalidEvr
  | some (ep, ma, mi, pa) =>
    match parseRelease rel with
    | .error e => .error e
    | .ok (rma, rmi, st) => .ok ⟨ep, ma, mi, pa, rma, rmi, st, commitHash⟩

/-- `EVR.__init__(version, release, commit_hash)`. The `buildtime` argument
is the value `time.strftime('%Y%m%d%H%M')` would return, made explicit. -/
def initEVR (ver rel : List Char) (commitHash : Option (List Char)) (buildtime : List Char) :
    Except EvrErr EVR :=
  if rel = ("nightly".data) then
    match commitHash with
    | none => .error .configError
    | some c => initParsed ver (nightlyStr buildtime c) (some c)
  else initParsed ver rel commitHash

/-- `EVR.lowest()`: `cls('0.0', '0')`. -/
def lowestEVR : Except EvrErr EVR := initEVR ("0.0".data) ("0".data) none []

/-! ### Formatting -/

/-- The `version` property: `'{}.{}.{}'`, with `'{}:...'` prefixed when the
epoch is truthy (non-zero). -/
def versionStr (e : EVR) : List Char :=
  (if e.epoch ≠ 0 then natToDec e.epoch ++ [':'] else []) ++
    natToDec e.vMajor ++ ['.'] ++ natToDec e.vMinor ++ ['.'] ++ natToDec e.vPatch

/-- The `release` property: `'{ma}.{mi}.{stage}'` when the stage is truthy,
else `'{ma}.{mi}'` when the minor is truthy, else `'{ma}'`. -/
def releaseStr (e : EVR) : List Char :=
  if optTruthy e.rStage then
    natToDec e.rMajor ++ ['.'] ++ natToDec e.rMinor ++ ['.'] ++ e.rStage.getD []
  else if e.rMinor ≠ 0 then natToDec e.rMajor ++ ['.'] ++ natToDec e.rMinor
  else natToDec e.rMajor

/-- `__str__`: `'-'.join((self.version, self.release))`. -/
def strEVR (e : EVR) : List Char := versionStr e ++ ['-'] ++ releaseStr e

/-- The `nightly_release` property: the stage is truthy and starts with `'n'`. -/
def nightlyRel (e : EVR) : Bool :=
  match e.rStage with
  | some (c :: _) => c = 'n'
  | _ => false

/-! ### Comparison -/

/-- Python string `<`: lexicographic comparison by code points, with a proper
prefix comparing below. -/
def strLt : List Char → List Char → Bool
  | [], [] => false
  | [], _ :: _ => true
  | _ :: _, [] => false
  | a :: as, b :: bs => if a < b then true else if b < a then false else strLt as bs

/-- `EVR.__lt__`. The loop over the six numeric components returns `True` as
soon as any single component of `self` is below the matching component of
`other`, and never returns early otherwise — it does not compare
lexicographically. The stage tie-break then runs whenever the stages
differ. (`self.r_stage[0]` would raise `IndexError` on the empty string;
stages produced by parsing are never empty, and the embedding uses `head?`,
which agrees with Python on every non-empty stage.) -/
def ltEVR (a b : EVR) : Bool :=
  if a.epoch < b.epoch then true
  else if a.vMajor < b.vMajor then true
  else if a.vMinor < b.vMinor then true
  else if a.vPatch < b.vPatch then true
  else if a.rMajor < b.rMajor then true
  else if a.rMinor < b.rMinor then true
  else if a.rStage ≠ b.rStage then
    match a.rStage, b.rStage with
    | none, _ => false
    | some _, none => true
    | some s, some t =>
      if s.head? = some 'n' ∧ ¬t.head? = some 'n' then true
      else if t.head? = some 'n' ∧ ¬s.head? = some 'n' then false
      else strLt s t
  else false

/-- `EVR.__eq__`: equality of canonical string forms. -/
def eqEVR (a b : EVR) : Bool := strEVR a = strEVR b

/-- `a > b` as produced by `functools.total_ordering` from `__lt__` and
`__eq__`: `not (a < b or a == b)`. -/
def gtEVR (a b : EVR) : Bool := ¬(ltEVR a b ∨ eqEVR a b)

/-! ### The specified comparison (for the refinement claims)

Modelled from the spec: a strict total order by lexicographic comparison of
`(epoch, version_major, version_minor, version_patch, release_major,
release_minor)` with a final stage tie-break — absent stage above every
named/nightly stage, nightly below every named stage, named stages in string
order, equal stages equal (distinct same-kind stages fall back to string
order, the only reading consistent with totality). -/
def specStageLt : Option (List Char) → Option (List Char) → Bool
  | none, _ => false
  | some _, none => true
  | some s, some t =>
    if s = t then false
    else if s.head? = some 'n' ∧ ¬t.head? = some 'n' then true
    else if t.head? = some 'n' ∧ ¬s.head? = some 'n' then false
    else strLt s t

/-- Modelled from the spec: the claimed lexicographic EVR order (see
`specStageLt`). -/
def specLt (a b : EVR) : Bool :=
  if a.epoch ≠ b.epoch then a.epoch < b.epoch
  else if a.vMajor ≠ b.vMajor then a.vMajor < b.vMajor
  else if a.vMinor ≠ b.vMinor then a.vMinor < b.vMinor
  else if a.vPatch ≠ b.vPatch then a.vPatch < b.vPatch
  else if a.rMajor ≠ b.rMajor then a.rMajor < b.rMajor
  else if a.rMinor ≠ b.rMinor then a.rMinor < b.rMinor
  else specStageLt a.rStage b.rStage

/-! ### fromstring, copy, next_stage, increment -/

/-- Python `rsplit(c, 1)`: split at the last occurrence of `c`, or `none`
when `c` does not occur. -/
def rsplitLast (c : Char) (s : List Char) : Option (List Char × List Char) :=
  let r := s.reverse
  let pre := r.takeWhile (fun x => x ≠ c)
  if pre.length = r.length then none
  else some ((r.drop (pre.length + 1)).reverse, pre.reverse)

/-- `EVR.fromstring`: split on the last `-` (unpacking fails without one)
and construct with no commit hash. -/
def fromstring (s : List Char) : Except EvrErr EVR :=
  match rsplitLast '-' s with
  | none => .error .unpackError
  | some (ver, rel) => initEVR ver rel none []

/-- `EVR.copy`: `type(self)(self.version, self.release)` — a re-parse of the
printed forms, dropping the commit hash. The printed release always starts
with a digit, so the `'nightly'` branch of `__init__` is never taken and the
`buildtime` argument is irrelevant. -/
def copyEVR (e : EVR) : Except EvrErr EVR := initEVR (versionStr e) (releaseStr e) none []

/-- `EVR.next_stage` as a function of the stage field:
`None`/nightly → alpha → beta → rc → `None` (GA); anything else raises. -/
def nextStageOf : Option (List Char) → Except EvrErr (Option (List Char))
  | none => .ok (some ("alpha".data))
  | some s =>
    if s.head? = some 'n' then .ok (some ("alpha".data))
    else if s = ("alpha".data) then .ok (some ("beta".data))
    else if s = ("beta".data) then .ok (some ("rc".data))
    else if s = ("rc".data) then .ok none
    else .error .unknownStage

/-- `EVR.next_stage`. -/
def nextStageFn (e : EVR) : Except EvrErr (Option (List Char)) := nextStageOf e.rStage

/-- The target-stage computation at the top of `EVR.increment`: an explicit
`next_stage` wins; else advance via `next_stage()` when `stage`; else `None`
when `release`; else keep the current stage. -/
def incStage (c : EVR) (rel stg : Bool) (nstage : Option (List Char)) :
    Except EvrErr (Option (List Char)) :=
  match nstage with
  | some s => .ok (some s)
  | none =>
    if stg then nextStageFn c
    else if rel then .ok none
    else .ok c.rStage

/-- The mutation part of `EVR.increment` on the copy `c`, given the computed
target stage `ns`: a target stage of `None` forces `release = True`; a
version bump resets the release component (`1.0` with no stage for a
release, else `0.1.<ns>`); then exactly one of the
major/minor/patch/truthy-next-stage branches runs. -/
def incPure (c : EVR) (maj min pat rel stg : Bool) (ns : Option (List Char)) : EVR :=
  let rel := rel ∨ ns = none
  let c := if maj ∨ min ∨ pat then
      if rel then { c with rMajor := 1, rMinor := 0, rStage := ns }
      else { c with rMajor := 0, rMinor := 1, rStage := ns }
    else c
  if maj then { c with vMajor := c.vMajor + 1, vMinor := 0, vPatch := 0 }
  else if min then { c with vMinor := c.vMinor + 1, vPatch := 0 }
  else if pat then { c with vPatch := c.vPatch + 1 }
  else if optTruthy ns then
    let c1 := { c with rMajor := 0, rMinor := c.rMinor + 1 }
    if stg then { c1 with rStage := ns } else c1
  else c

/-- `EVR.increment(major, minor, patch, release, stage, next_stage)`:
work on `self.copy()` (which re-parses the printed strings and can raise),
compute the target stage (which can raise on an unknown stage), then apply
the pure mutations. -/
def increment (e : EVR) (maj min pat rel stg : Bool) (nstage : Option (List Char)) :
    Except EvrErr EVR := do
  let c ← copyEVR e
  let ns ← incStage c rel stg nstage
  pure (incPure c maj min pat rel stg ns)

/-! ### The branch promotion chain (`git_workflow.promotion_chain`)

The branch list that the source obtains from `git branch -r` is the injected
branch-enumeration capability; it enters the embedding as a list of branch
name strings. Everything else follows the source. -/

/-- The failure modes of the embedded `promotion_chain`. -/
inductive GitErr where
  /-- The no-match branch raises
  `ValueError('...').format(start_ref)`: `.format` is called on the
  exception object, not on the message string, so Python raises
  `AttributeError: 'ValueError' object has no attribute 'format'` before
  any `ValueError` exists. -/
  | attributeError
  /-- `sys.exit(1)` in the missing-branch check (a `SystemExit`). -/
  | systemExit
  /-- A `LooseVersion` comparison between an int and a str component. -/
  | typeError
deriving DecidableEq, Repr

/-- Python `str.strip()` with no argument: remove leading and trailing
whitespace. -/
def pyStrip (s : List Char) : List Char :=
  ((s.dropWhile Char.isWhitespace).reverse.dropWhile Char.isWhitespace).reverse

/-! #### The branch regex

`branch_regex = "(?P<version>\d+.\d+)-(?P<stream>dev|release)"` used with
`re.search`: the leftmost position with a match wins; the `.` after the first
`\d+` is unescaped and matches any character except `'\n'`; `dev` is tried
before `release` and nothing anchors the end, so `dev` also matches as a
prefix (e.g. of `development`). At a fixed position the first `\d+` is greedy
over the leading digit run `R` and backtracks one digit at a time; the second
`\d+` must be a complete digit run followed by the literal `-` (a shorter
greedy choice leaves a digit where `-` is required). -/

/-- One attempt of the branch pattern at a fixed position, with the first
`\d+` bound to the first `k` characters of the leading digit run `R` (`k`
counts down, mirroring greedy backtracking). Returns
`(version group, stream group)`. -/
def branchMatchK : Nat → List Char → List Char → Option (List Char × List Char)
  | 0, _, _ => none
  | k + 1, r, cs =>
    let attempt : Option (List Char × List Char) :=
      match cs.drop (k + 1) with
      | [] => none
      | c :: rest2 =>
        if c = '\n' then none
        else
          let d2 := (digitRun rest2).1
          if d2.isEmpty then none
          else match (digitRun rest2).2 with
            | '-' :: rest4 =>
              if ("dev".data).isPrefixOf rest4 then
                some (r.take (k + 1) ++ c :: d2, ("dev".data))
              else if ("release".data).isPrefixOf rest4 then
                some (r.take (k + 1) ++ c :: d2, ("release".data))
              else none
            | _ => none
    match attempt with
    | some x => some x
    | none => branchMatchK k r cs

/-- The branch pattern matched at the current position only. -/
def branchMatchHere (cs : List Char) : Option (List Char × List Char) :=
  branchMatchK (digitRun cs).1.length (digitRun cs).1 cs

/-- `re.search(branch_regex, cs)`: try each position left to right. -/
def branchSearch : List Char → Option (List Char × List Char)
  | [] => none
  | c :: rest =>
    match branchMatchHere (c :: rest) with
    | some x => some x
    | none => branchSearch rest

/-! #### `distutils.version.LooseVersion` -/

/-- A `LooseVersion` component: an int (from a digit run) or a string. -/
inductive LTok where
  | num (n : Nat)
  | str (s : List Char)
deriving DecidableEq, Repr

/-- Character class of the `LooseVersion` tokenizer. -/
def ltokClass (c : Char) : Nat :=
  if c.isDigit then 0 else if 'a' ≤ c ∧ c ≤ 'z' then 1 else if c = '.' then 2 else 3

/-- Fuel-driven tokenizer loop; every step consumes at least one character,
so fuel equal to the string length always suffices. -/
def looseTokensAux : Nat → List Char → List LTok
  | 0, _ => []
  | fuel + 1, cs =>
    match cs with
    | [] => []
    | c :: rest =>
      let run := c :: rest.takeWhile (fun x => ltokClass x = ltokClass c)
      let tok : List LTok :=
        if ltokClass c = 0 then [.num (decVal run)]
        else if ltokClass c = 2 then [] else [.str run]
      tok ++ looseTokensAux fuel (rest.dropWhile (fun x => ltokClass x = ltokClass c))

/-- `LooseVersion.parse`: split on `(\d+ | [a-z]+ | \.)` keeping the
separators, drop empty pieces and `'.'`, convert digit runs to ints. Digit
runs and lowercase runs are the matches; maximal runs of all other
characters are the kept separator pieces. -/
def looseTokens (cs : List Char) : List LTok := looseTokensAux cs.length cs

/-- Three-way comparison of Python values `int | str` as list elements:
`==` across the two types is `False` without error, but `<` between an int
and a str raises `TypeError` (modelled as `none`). -/
def ltokCmp : LTok → LTok → Option Ordering
  | .num a, .num b => some (compare a b)
  | .str a, .str b =>
    if a = b then some .eq else if strLt a b then some .lt else some .gt
  | _, _ => none

/-- Python list comparison of `LooseVersion.version` component lists. -/
def looseCmp : List LTok → List LTok → Option Ordering
  | [], [] => some .eq
  | [], _ :: _ => some .lt
  | _ :: _, [] => some .gt
  | x :: xs, y :: ys =>
    match ltokCmp x y with
    | none => none
    | some .eq => looseCmp xs ys
    | some o => some o

/-- `LooseVersion(a) > LooseVersion(b)`, propagating the mixed-type
`TypeError` as `none`. -/
def looseGt (a b : List Char) : Option Bool :=
  (looseCmp (looseTokens a) (looseTokens b)).map (fun o => o = .gt)

/-- Set insertion for the Python `set()`s of version strings (iteration
order is irrelevant: `all_branches` is only tested for membership and
`target_branch_versions` is sorted before use). -/
def insertSet (v : List Char) (s : List (List Char)) : List (List Char) :=
  if v ∈ s then s else s ++ [v]

/-- Insertion step of `sorted(..., key=LooseVersion)`. -/
def insertLoose (v : List Char) : List (List Char) → Except GitErr (List (List Char))
  | [] => .ok [v]
  | w :: ws =>
    match looseCmp (looseTokens v) (looseTokens w) with
    | none => .error .typeError
    | some .lt => .ok (v :: w :: ws)
    | some _ => (insertLoose v ws).map (fun l => w :: l)

/-- `sorted(target_branch_versions, key=LooseVersion)` (ascending, stable). -/
def sortLoose : List (List Char) → Except GitErr (List (List Char))
  | [] => .ok []
  | v :: vs => do insertLoose v (← sortLoose vs)

/-- The branch-scanning loop of `promotion_chain`: for each line, strip it
and search for the branch pattern; on a match add the version to
`all_branches`, and to `target_branch_versions` when it compares greater by
`LooseVersion` (evaluated first — `and` short-circuits) and has the same
major component. Returns `(all_branches, target_branch_versions)`. -/
def scanBranches (srcVer srcMajor : List Char) :
    List String → List (List Char) → List (List Char) →
    Except GitErr (List (List Char) × List (List Char))
  | [], alls, targets => .ok (alls, targets)
  | b :: bs, alls, targets =>
    match branchSearch (pyStrip b.data) with
    | none => scanBranches srcVer srcMajor bs alls targets
    | some (bv, _) =>
      match looseGt bv srcVer with
      | none => .error .typeError
      | some gt =>
        let targets1 :=
          if gt ∧ bv.takeWhile (fun c => c ≠ '.') = srcMajor then insertSet bv targets
          else targets
        scanBranches srcVer srcMajor bs (insertSet bv alls) targets1

/-- `git_workflow.promotion_chain(git_directory, commit_ref, parent_branch,
skip_master)`, with the repository's remote branch names supplied as
`branches`. Returns the remote-qualified chain, or the error raised. -/
def promotionChain (branches : List String) (commitRef : String)
    (parentBranch : Option String) (skipMaster : Bool) : Except GitErr (List String) :=
  let ref := pyStrip commitRef.data
  if ref = ("master".data) then .ok ["master"]
  else
    let chain : List (List Char) :=
      match parentBranch with
      | some p => [ref, p.data]
      | none => [ref]
    -- start_ref = promotion_chain[-1]
    let startRef : List Char :=
      match parentBranch with
      | some p => p.data
      | none => ref
    match branchSearch startRef with
    | none => .error .attributeError
    | some (ver, stream) =>
      let srcMajor := ver.takeWhile (fun c => c ≠ '.')
      let chain := if stream = ("release".data) then chain ++ [ver ++ ("-dev".data)] else chain
      match scanBranches ver srcMajor branches [] [] with
      | .error e => .error e
      | .ok (alls, targets) =>
        match sortLoose targets with
        | .error e => .error e
        | .ok sortedT =>
          let chain := chain ++ sortedT.map (fun v => v ++ ("-dev".data))
          let missing := sortedT.filter (fun v => v ∉ alls)
          if ¬missing.isEmpty then .error .systemExit
          else
            let chain := if skipMaster then chain else chain ++ [("master".data)]
            .ok (chain.map (fun b => String.mk (("origin/".data) ++ b)))

/-! ### Well-formedness for the amended round-trip statement -/

/-- Stages whose printed form re-parses to themselves and survives
construction: at least two characters (the `.+[^.]` group needs two), not
ending in `.` (trailing dots are stripped by backtracking), no newline
before the last character (the `.`-class cannot cross one), not a named
pre-release stage (construction rejects those, see `parseRelease`), and
dash-free (`fromstring` splits on the last dash). -/
def stageWF (s : List Char) : Prop :=
  2 ≤ s.length ∧ s.getLast? ≠ some '.' ∧ (∀ c ∈ s.dropLast, c ≠ '\n') ∧
    s ≠ ("alpha".data) ∧ s ≠ ("beta".data) ∧ s ≠ ("rc".data) ∧ '-' ∉ s

instance (s : List Char) : Decidable (stageWF s) :=
  inferInstanceAs (Decidable (_ ∧ _))

/-- The stage/major condition `parse_release` enforces, as a predicate on
fields: a GA release has major ≥ 1; a staged release has a `stageWF` stage. -/
def stageCond (rma : Nat) : Option (List Char) → Prop
  | none => 1 ≤ rma
  | some s => stageWF s

instance (rma : Nat) (st : Option (List Char)) : Decidable (stageCond rma st) :=
  match st with
  | none => inferInstanceAs (Decidable (1 ≤ rma))
  | some s => inferInstanceAs (Decidable (stageWF s))

/-- An `EVR` whose printed form re-parses to the same fields: the stage and
GA conditions, plus a single-digit version major when the epoch is 0 (with
no printed epoch, the version regex shifts all but the last leading digit
into the epoch group). -/
def rtWF (e : EVR) : Prop :=
  (e.epoch = 0 → e.vMajor < 10) ∧ stageCond e.rMajor e.rStage

instance (e : EVR) : Decidable (rtWF e) :=
  inferInstanceAs (Decidable (_ ∧ _))

/-- The stages `next_stage()` knows how to advance: `None`, a nightly
(leading `n`), or a named stage. -/
def stageKnown (e : EVR) : Prop :=
  match e.rStage with
  | none => True
  | some s =>
    s.head? = some 'n' ∨ s = ("alpha".data) ∨ s = ("beta".data) ∨ s = ("rc".data)

instance (e : EVR) : Decidable (stageKnown e) := by
  unfold stageKnown
  cases e.rStage with
  | none => exact inferInstanceAs (Decidable True)
  | some s => exact inferInstanceAs (Decidable (_ ∨ _))

/-! ### Concrete values used by the claim theorems -/

/-- `EVR('1:1.0.0', '1')`: epoch 1, version 1.0.0, GA release 1. -/
def evrA : EVR := ⟨1, 1, 0, 0, 1, 0, none, none⟩

/-- `EVR('2.0.0', '1')`: epoch 0, version 2.0.0, GA release 1. -/
def evrB : EVR := ⟨0, 2, 0, 0, 1, 0, none, none⟩

/-- `EVR('1.2.3', '1')`: epoch 0, version 1.2.3, GA release 1. -/
def evrGA : EVR := ⟨0, 1, 2, 3, 1, 0, none, none⟩

/-! ### Theorems -/

theorem natToDecAux_fuel_irrel (f : Nat) : ∀ g n : Nat, n < f → n < g →
    natToDecAux f n = natToDecAux g n := by
  induction f with
  | zero => intro g n h; omega
  | succ f ih =>
    intro g n hf hg
    cases g with
    | zero => omega
    | succ g =>
      simp only [natToDecAux]
      by_cases h10 : n < 10
      · simp [h10]
      · have hn : 0 < n := by omega
        have hlt : n / 10 < n := Nat.div_lt_self hn (by omega)
        simp only [h10, if_false]
        rw [ih g (n / 10) (by omega) (by omega)]

theorem natToDec_small {n : Nat} (h : n < 10) : natToDec n = [digitChar n] := by
  simp [natToDec, natToDecAux, h]

theorem natToDec_step {n : Nat} (h : 10 ≤ n) :
    natToDec n = natToDec (n / 10) ++ [digitChar (n % 10)] := by
  have hlt : n / 10 < n := Nat.div_lt_self (by omega) (by omega)
  have h2 : natToDec (n / 10) = natToDecAux n (n / 10) :=
    natToDecAux_fuel_irrel (n / 10 + 1) n (n / 10) (by omega) (by omega)
  rw [h2]
  simp only [natToDec, natToDecAux]
  rw [if_neg (Nat.not_lt.mpr h)]

theorem digitChar_isDigit {n : Nat} (h : n < 10) : (digitChar n).isDigit = true := by
  interval_cases n <;> decide

theorem digitVal_digitChar {n : Nat} (h : n < 10) : digitVal (digitChar n) = n := by
  interval_cases n <;> decide

theorem natToDec_digits (n : Nat) : ∀ c ∈ natToDec n, c.isDigit = true := by
  induction n using Nat.strong_induction_on with
  | _ n ih =>
    by_cases h : n < 10
    · rw [natToDec_small h]
      intro c hc
      simp only [List.mem_singleton] at hc
      subst hc; exact digitChar_isDigit h
    · rw [natToDec_step (by omega)]
      intro c hc
      rcases List.mem_append.mp hc with h1 | h2
      · exact ih (n / 10) (Nat.div_lt_self (by omega) (by omega)) c h1
      · simp only [List.mem_singleton] at h2
        subst h2; exact digitChar_isDigit (Nat.mod_lt n (by omega))

theorem natToDec_ne_nil (n : Nat) : natToDec n ≠ [] := by
  by_cases h : n < 10
  · rw [natToDec_small h]; simp
  · rw [natToDec_step (by omega)]; simp

theorem decVal_append (a b : List Char) :
    decVal (a ++ b) = b.foldl (fun x c => 10 * x + digitVal c) (decVal a) := by
  simp [decVal, List.foldl_append]

theorem decVal_natToDec (n : Nat) : decVal (natToDec n) = n := by
  induction n using Nat.strong_induction_on with
  | _ n ih =>
    by_cases h : n < 10
    · rw [natToDec_small h]
      simp [decVal, digitVal_digitChar h]
    · rw [natToDec_step (by omega), decVal_append,
        ih (n / 10) (Nat.div_lt_self (by omega) (by omega))]
      simp only [List.foldl_cons, List.foldl_nil]
      rw [digitVal_digitChar (Nat.mod_lt n (by omega))]
      omega

theorem takeWhile_append_of_forall {p : Char → Bool} {a : List Char} (b : List Char)
    (ha : ∀ c ∈ a, p c = true) : (a ++ b).takeWhile p = a ++ b.takeWhile p := by
  induction a with
  | nil => simp
  | cons x xs ih =>
    have hx : p x = true := ha x (by simp)
    simp only [List.cons_append, List.takeWhile_cons, hx, if_true]
    rw [ih (fun c hc => ha c (by simp [hc]))]

theorem dropWhile_append_of_forall {p : Char → Bool} {a : List Char} (b : List Char)
    (ha : ∀ c ∈ a, p c = true) : (a ++ b).dropWhile p = b.dropWhile p := by
  induction a with
  | nil => simp
  | cons x xs ih =>
    have hx : p x = true := ha x (by simp)
    simp only [List.cons_append, List.dropWhile_cons, hx, if_true]
    exact ih (fun c hc => ha c (by simp [hc]))

theorem takeWhile_eq_nil_of_head {p : Char → Bool} {b : List Char}
    (hb : ∀ c, b.head? = some c → p c = false) : b.takeWhile p = [] := by
  cases b with
  | nil => simp
  | cons x xs =>
    have := hb x rfl
    simp [List.takeWhile_cons, this]

theorem dropWhile_eq_self_of_head {p : Char → Bool} {b : List Char}
    (hb : ∀ c, b.head? = some c → p c = false) : b.dropWhile p = b := by
  cases b with
  | nil => simp
  | cons x xs =>
    have := hb x rfl
    simp [List.dropWhile_cons, this]

/-- `digitRun` splits a printed numeral followed by a non-digit remainder. -/
theorem digitRun_append {a b : List Char} (ha : ∀ c ∈ a, c.isDigit = true)
    (hb : ∀ c, b.head? = some c → c.isDigit = false) :
    digitRun (a ++ b) = (a, b) := by
  simp only [digitRun]
  rw [takeWhile_append_of_forall b ha, dropWhile_append_of_forall b ha,
    takeWhile_eq_nil_of_head hb, dropWhile_eq_self_of_head hb]
  simp

theorem dropWhile_length_le (p : Char → Bool) (l : List Char) :
    (l.dropWhile p).length ≤ l.length := by
  induction l with
  | nil => simp
  | cons x xs ih =>
    by_cases h : p x
    · simp only [List.dropWhile_cons, h, if_true, List.length_cons]
      omega
    · simp [List.dropWhile_cons, h]

/-! ### Parsing the printed forms -/

theorem takeWhile_eq_self_of_forall {p : Char → Bool} {a : List Char}
    (ha : ∀ c ∈ a, p c = true) : a.takeWhile p = a := by
  have h := takeWhile_append_of_forall (a := a) [] ha
  simpa using h

theorem headNotDigit_cons {d : Char} (hd : d.isDigit = false) (u : List Char) :
    ∀ c, (d :: u).head? = some c → c.isDigit = false := by
  intro c h
  rw [List.head?_cons] at h
  injection h with h
  rw [← h]
  exact hd

theorem headNotDigit_nil : ∀ c, ([] : List Char).head? = some c → c.isDigit = false := by
  intro c h
  simp at h

/-- `digitRun` splits a printed numeral from a non-digit (or empty) tail. -/
theorem digitRun_numeral (n : Nat) {rest : List Char}
    (hrest : ∀ c, rest.head? = some c → c.isDigit = false) :
    digitRun (natToDec n ++ rest) = (natToDec n, rest) :=
  digitRun_append (natToDec_digits n) hrest

theorem digitRun_numeral_nil (n : Nat) : digitRun (natToDec n) = (natToDec n, []) := by
  have h := @digitRun_numeral n [] headNotDigit_nil
  simpa using h

theorem natToDec_not_isEmpty (n : Nat) : (natToDec n).isEmpty = false := by
  have h := natToDec_ne_nil n
  cases hn : natToDec n with
  | nil => exact absurd hn h
  | cons c cs => simp [List.isEmpty]

/-- `stageOf` is the identity on well-formed printed stages. -/
theorem stageOf_self {s : List Char} (h2 : 2 ≤ s.length) (hlast : s.getLast? ≠ some '.')
    (hdl : ∀ c ∈ s.dropLast, c ≠ '\n') : stageOf s = some s := by
  have hne : s ≠ [] := by
    intro h
    rw [h] at h2
    simp at h2
  by_cases hnl : '\n' ∈ s
  · -- the newline can only be the last character
    have hsplit : s.dropLast ++ [s.getLast hne] = s := List.dropLast_append_getLast hne
    have hlastNl : s.getLast hne = '\n' := by
      rcases (List.mem_append.mp (hsplit ▸ hnl)) with h1 | h1
      · exact absurd rfl (hdl '\n' h1)
      · exact (List.mem_singleton.mp h1).symm
    have htw : s.takeWhile (fun c => c ≠ '\n') = s.dropLast := by
      conv_lhs => rw [← hsplit]
      rw [takeWhile_append_of_forall _ (fun c hc => by simpa using hdl c hc)]
      rw [hlastNl]
      simp
    have hlen : s.dropLast.length < s.length := by
      rw [List.length_dropLast]
      omega
    have hdne : s.dropLast.isEmpty = false := by
      have : 1 ≤ s.dropLast.length := by
        rw [List.length_dropLast]; omega
      cases hd : s.dropLast with
      | nil => rw [hd] at this; simp at this
      | cons c cs => simp [List.isEmpty]
    simp only [stageOf, htw, hlen, if_true, hdne, Bool.false_eq_true, if_false]
    rw [← hlastNl, hsplit]
  · -- no newline at all
    have htw : s.takeWhile (fun c => c ≠ '\n') = s :=
      takeWhile_eq_self_of_forall (fun c hc => by
        simp only [decide_eq_true_eq]
        intro h
        exact hnl (h ▸ hc))
    have hdw : s.reverse.dropWhile (fun c => c = '.') = s.reverse := by
      apply dropWhile_eq_self_of_head
      intro c hc
      rw [List.head?_reverse] at hc
      simp only [decide_eq_false_iff_not]
      intro h
      exact hlast (h ▸ hc)
    simp only [stageOf, htw, Nat.lt_irrefl, if_false, hdw, List.reverse_reverse, h2, if_true]

/-- Parsing the printed `minor.patch` tail. -/
theorem parseMinorPatch_print (mi pa : Nat) :
    parseMinorPatch (natToDec mi ++ '.' :: natToDec pa) = some (mi, pa) := by
  have h1 : digitRun (natToDec mi ++ '.' :: natToDec pa) = (natToDec mi, '.' :: natToDec pa) :=
    digitRun_numeral mi (headNotDigit_cons (by decide) _)
  simp only [parseMinorPatch, h1, natToDec_not_isEmpty, Bool.false_eq_true, if_false,
    digitRun_numeral_nil, decVal_natToDec]

/-- Parsing the printed `major.minor.patch` tail. -/
theorem parseMMP_print (ma mi pa : Nat) :
    parseMMP (natToDec ma ++ '.' :: (natToDec mi ++ '.' :: natToDec pa)) = some (ma, mi, pa) := by
  have h1 : digitRun (natToDec ma ++ '.' :: (natToDec mi ++ '.' :: natToDec pa)) =
      (natToDec ma, '.' :: (natToDec mi ++ '.' :: natToDec pa)) :=
    digitRun_numeral ma (headNotDigit_cons (by decide) _)
  simp only [parseMMP, h1, natToDec_not_isEmpty, Bool.false_eq_true, if_false,
    parseMinorPatch_print, decVal_natToDec]
  rfl

/-- Re-parsing the printed `version` property recovers the fields, provided
the version major is a single digit whenever the epoch is 0. -/
theorem parseVersion_print (e : EVR) (h : e.epoch = 0 → e.vMajor < 10) :
    parseVersionChars (versionStr e) = some (e.epoch, e.vMajor, e.vMinor, e.vPatch) := by
  by_cases hep : e.epoch = 0
  · have hlt : e.vMajor < 10 := h hep
    have hma : natToDec e.vMajor = [digitChar e.vMajor] := natToDec_small hlt
    have hver : versionStr e =
        [digitChar e.vMajor] ++ '.' :: (natToDec e.vMinor ++ '.' :: natToDec e.vPatch) := by
      simp [versionStr, hep, hma]
    have h1 : digitRun (versionStr e) =
        ([digitChar e.vMajor], '.' :: (natToDec e.vMinor ++ '.' :: natToDec e.vPatch)) := by
      rw [hver]
      exact digitRun_append
        (by
          intro c hc
          simp only [List.mem_singleton] at hc
          subst hc
          exact digitChar_isDigit hlt)
        (headNotDigit_cons (by decide) _)
    simp only [parseVersionChars, h1, List.isEmpty_cons, Bool.false_eq_true, if_false,
      parseMinorPatch_print, hep, digitVal_digitChar hlt]
    rfl
  · have hver : versionStr e = natToDec e.epoch ++
        ':' :: (natToDec e.vMajor ++ '.' :: (natToDec e.vMinor ++ '.' :: natToDec e.vPatch)) := by
      simp [versionStr, hep]
    have h1 : digitRun (versionStr e) = (natToDec e.epoch,
        ':' :: (natToDec e.vMajor ++ '.' :: (natToDec e.vMinor ++ '.' :: natToDec e.vPatch))) := by
      rw [hver]
      exact digitRun_numeral _ (headNotDigit_cons (by decide) _)
    simp only [parseVersionChars, h1, natToDec_not_isEmpty, Bool.false_eq_true, if_false,
      parseMMP_print, decVal_natToDec]
    rfl

/-- The printed release always starts with a digit, so it is never the
literal `nightly`. -/
theorem releaseStr_ne_nightly (e : EVR) : releaseStr e ≠ ("nightly".data) := by
  obtain ⟨d, ds, hd⟩ : ∃ d ds, natToDec e.rMajor = d :: ds := by
    cases hn : natToDec e.rMajor with
    | nil => exact absurd hn (natToDec_ne_nil e.rMajor)
    | cons d ds => exact ⟨d, ds, rfl⟩
  have hdig : d.isDigit = true := natToDec_digits e.rMajor d (by rw [hd]; simp)
  have hhead : (releaseStr e).head? = some d := by
    unfold releaseStr
    split_ifs <;> simp [hd]
  intro h
  rw [h] at hhead
  have : d = 'n' := by
    simpa using hhead.symm
  rw [this] at hdig
  exact absurd hdig (by decide)

/-- Re-parsing the printed `release` property recovers the fields, provided
the stage/major conditions hold. -/
theorem parseRelease_print (e : EVR) (h : stageCond e.rMajor e.rStage) :
    parseRelease (releaseStr e) = .ok (e.rMajor, e.rMinor, e.rStage) := by
  rw [parseRelease, if_neg (releaseStr_ne_nightly e)]
  cases hst : e.rStage with
  | some s =>
    have hwf : stageWF s := by
      have := h
      rw [hst] at this
      exact this
    obtain ⟨hlen, hlast, hnl, hal, hbe, hrc, hdash⟩ := hwf
    have hne : ¬s.isEmpty = true := by
      cases s with
      | nil => simp at hlen
      | cons c cs => simp [List.isEmpty]
    have htr : optTruthy (some s) = true := by
      simpa [optTruthy] using hne
    have hrel : releaseStr e =
        natToDec e.rMajor ++ '.' :: (natToDec e.rMinor ++ '.' :: s) := by
      simp [releaseStr, hst, htr]
    have h1 : digitRun (releaseStr e) =
        (natToDec e.rMajor, '.' :: (natToDec e.rMinor ++ '.' :: s)) := by
      rw [hrel]
      exact digitRun_numeral _ (headNotDigit_cons (by decide) _)
    have h2 : digitRun (natToDec e.rMinor ++ '.' :: s) = (natToDec e.rMinor, '.' :: s) :=
      digitRun_numeral _ (headNotDigit_cons (by decide) _)
    have hmatch : releaseMatch (releaseStr e) =
        some (e.rMajor, e.rMinor, some s) := by
      simp only [releaseMatch, h1, natToDec_not_isEmpty, Bool.false_eq_true, if_false, h2,
        decVal_natToDec, stageOf_self hlen hlast hnl]
    simp only [hmatch]
    have hcond : optTruthy (some s) = true ∧ intNeStrZero e.rMajor = true := ⟨htr, rfl⟩
    rw [if_pos hcond, if_neg]
    simp only [Option.some.injEq]
    push_neg
    exact ⟨hal, hbe, hrc⟩
  | none =>
    have hga : 1 ≤ e.rMajor := by
      have := h
      rw [hst] at this
      exact this
    have htr : optTruthy e.rStage = false := by
      rw [hst]
      rfl
    by_cases hmi : e.rMinor = 0
    · have hrel : releaseStr e = natToDec e.rMajor := by
        simp [releaseStr, htr, hmi]
      have hmatch : releaseMatch (releaseStr e) = some (e.rMajor, 0, none) := by
        simp only [releaseMatch, hrel, digitRun_numeral_nil, natToDec_not_isEmpty,
          Bool.false_eq_true, if_false, decVal_natToDec]
        rfl
      simp only [hmatch]
      rw [if_neg (by simp [optTruthy]), if_neg (by simp only [optTruthy]; omega), hmi]
    · have hrel : releaseStr e = natToDec e.rMajor ++ '.' :: natToDec e.rMinor := by
        simp [releaseStr, htr, hmi]
      have h1 : digitRun (releaseStr e) = (natToDec e.rMajor, '.' :: natToDec e.rMinor) := by
        rw [hrel]
        exact digitRun_numeral _ (headNotDigit_cons (by decide) _)
      have hmatch : releaseMatch (releaseStr e) = some (e.rMajor, e.rMinor, none) := by
        simp only [releaseMatch, h1, natToDec_not_isEmpty, Bool.false_eq_true, if_false,
          digitRun_numeral_nil, decVal_natToDec]
        rfl
      simp only [hmatch]
      rw [if_neg (by simp [optTruthy]), if_neg (by simp only [optTruthy]; omega)]

/-- No dash occurs in the printed release (its stage is dash-free by
`stageWF`, and the rest is digits and dots). -/
theorem noDash_releaseStr (e : EVR) (h : stageCond e.rMajor e.rStage) :
    '-' ∉ releaseStr e := by
  have hnum : ∀ n : Nat, ('-' : Char) ∉ natToDec n := by
    intro n hmem
    exact absurd (natToDec_digits n '-' hmem) (by decide)
  cases hst : e.rStage with
  | some s =>
    have hwf : stageWF s := by
      rw [hst] at h
      exact h
    have hne : ¬s.isEmpty = true := by
      cases s with
      | nil => exact absurd hwf.1 (by decide)
      | cons c cs => simp [List.isEmpty]
    have htr : optTruthy (some s) = true := by
      simpa [optTruthy] using hne
    have hrel : releaseStr e = natToDec e.rMajor ++ '.' :: (natToDec e.rMinor ++ '.' :: s) := by
      simp [releaseStr, hst, htr]
    rw [hrel]
    intro hmem
    rcases List.mem_append.mp hmem with h1 | h1
    · exact hnum _ h1
    · rcases List.mem_cons.mp h1 with h1 | h1
      · exact absurd h1 (by decide)
      · rcases List.mem_append.mp h1 with h2 | h2
        · exact hnum _ h2
        · rcases List.mem_cons.mp h2 with h3 | h3
          · exact absurd h3 (by decide)
          · exact hwf.2.2.2.2.2.2 h3
  | none =>
    have htr : optTruthy e.rStage = false := by
      rw [hst]
      rfl
    by_cases hmi : e.rMinor = 0
    · have hrel : releaseStr e = natToDec e.rMajor := by
        simp [releaseStr, htr, hmi]
      rw [hrel]
      exact hnum _
    · have hrel : releaseStr e = natToDec e.rMajor ++ '.' :: natToDec e.rMinor := by
        simp [releaseStr, htr, hmi]
      rw [hrel]
      intro hmem
      rcases List.mem_append.mp hmem with h1 | h1
      · exact hnum _ h1
      · rcases List.mem_cons.mp h1 with h2 | h2
        · exact absurd h2 (by decide)
        · exact hnum _ h2

/-- `rsplit('-', 1)` recovers the two halves when the right half is
dash-free. -/
theorem rsplitLast_append {a b : List Char} (hb : '-' ∉ b) :
    rsplitLast '-' (a ++ '-' :: b) = some (a, b) := by
  have hrev : (a ++ '-' :: b).reverse = b.reverse ++ '-' :: a.reverse := by
    simp
  have htw : (b.reverse ++ '-' :: a.reverse).takeWhile (fun x => x ≠ '-') = b.reverse := by
    rw [takeWhile_append_of_forall _ (fun c hc => by
      simp only [ne_eq, decide_eq_true_eq]
      intro h
      exact hb (h ▸ List.mem_reverse.mp hc))]
    simp
  have hdrop : (b.reverse ++ '-' :: a.reverse).drop (b.reverse.length + 1) = a.reverse := by
    have h1 : b.reverse ++ '-' :: a.reverse = (b.reverse ++ ['-']) ++ a.reverse := by
      simp
    rw [h1]
    have hl : b.reverse.length + 1 = (b.reverse ++ ['-']).length := by
      simp
    rw [hl, List.drop_left]
  have hlen : ¬b.reverse.length = (b.reverse ++ '-' :: a.reverse).length := by
    simp only [List.length_reverse, List.length_append, List.length_cons]
    omega
  simp only [rsplitLast, hrev, htw]
  rw [if_neg hlen, hdrop]
  simp

/-- On a reparse-stable EVR, `copy()` returns the same fields with the
commit hash dropped. -/
theorem copyEVR_rt (e : EVR) (h : rtWF e) : copyEVR e = .ok { e with commit := none } := by
  obtain ⟨h1, h2⟩ := h
  have hnn := releaseStr_ne_nightly e
  rw [copyEVR, initEVR, if_neg hnn]
  simp only [initParsed, parseVersion_print e h1, parseRelease_print e h2]

theorem nextStageFn_ok (c : EVR) (h : stageKnown c) : ∃ v, nextStageFn c = .ok v := by
  unfold stageKnown at h
  unfold nextStageFn
  cases hcs : c.rStage with
  | none => exact ⟨some ("alpha".data), rfl⟩
  | some s =>
    rw [hcs] at h
    have h' : s.head? = some 'n' ∨ s = ("alpha".data) ∨ s = ("beta".data) ∨ s = ("rc".data) := h
    rcases h' with h1 | h1 | h1 | h1
    · exact ⟨some ("alpha".data), by simp only [nextStageOf, h1, if_pos]⟩
    · subst h1
      exact ⟨some ("beta".data), by decide⟩
    · subst h1
      exact ⟨some ("rc".data), by decide⟩
    · subst h1
      exact ⟨none, by decide⟩

theorem incStage_ok (c : EVR) (rel stg : Bool) (ns : Option (List Char))
    (h : stg = true → ns = none → stageKnown c) :
    ∃ v, incStage c rel stg ns = .ok v := by
  cases ns with
  | some s => exact ⟨some s, rfl⟩
  | none =>
    by_cases hstg : stg = true
    · obtain ⟨v, hv⟩ := nextStageFn_ok c (h hstg rfl)
      exact ⟨v, by simp only [incStage, hstg, if_true, hv]⟩
    · refine ⟨if rel then none else c.rStage, ?_⟩
      simp only [incStage, hstg, if_false]
      by_cases hrel : rel = true <;> simp [hrel]

theorem incPure_epoch (c : EVR) (mj mi pa rl st : Bool) (ns : Option (List Char)) :
    (incPure c mj mi pa rl st ns).epoch = c.epoch := by
  simp only [incPure]
  split_ifs <;> simp_all

theorem incPure_vMajor_bump (c : EVR) (mj mi pa rl st : Bool) (ns : Option (List Char))
    (h : mj = true) : (incPure c mj mi pa rl st ns).vMajor = c.vMajor + 1 := by
  subst h
  simp only [incPure]
  split_ifs <;> simp_all

theorem incPure_vMajor_keep (c : EVR) (mj mi pa rl st : Bool) (ns : Option (List Char))
    (h : mj = false) : (incPure c mj mi pa rl st ns).vMajor = c.vMajor := by
  subst h
  simp only [incPure]
  split_ifs <;> simp_all

theorem incPure_vMinor_bump (c : EVR) (mj mi pa rl st : Bool) (ns : Option (List Char))
    (h1 : mj = false) (h2 : mi = true) :
    (incPure c mj mi pa rl st ns).vMinor = c.vMinor + 1 := by
  subst h1
  subst h2
  simp only [incPure]
  split_ifs <;> simp_all

theorem incPure_vMinor_keep (c : EVR) (mj mi pa rl st : Bool) (ns : Option (List Char))
    (h1 : mj = false) (h2 : mi = false) :
    (incPure c mj mi pa rl st ns).vMinor = c.vMinor := by
  subst h1
  subst h2
  simp only [incPure]
  split_ifs <;> simp_all

theorem incPure_vPatch_bump (c : EVR) (mj mi pa rl st : Bool) (ns : Option (List Char))
    (h1 : mj = false) (h2 : mi = false) (h3 : pa = true) :
    (incPure c mj mi pa rl st ns).vPatch = c.vPatch + 1 := by
  subst h1
  subst h2
  subst h3
  simp only [incPure]
  split_ifs <;> simp_all

theorem specLt_of_vMajor (a b : EVR) (h0 : a.epoch = b.epoch) (h : a.vMajor < b.vMajor) :
    specLt a b = true := by
  unfold specLt
  rw [if_neg (by omega : ¬a.epoch ≠ b.epoch), if_pos (by omega : a.vMajor ≠ b.vMajor)]
  simpa using h

theorem specLt_of_vMinor (a b : EVR) (h0 : a.epoch = b.epoch) (h1 : a.vMajor = b.vMajor)
    (h : a.vMinor < b.vMinor) : specLt a b = true := by
  unfold specLt
  rw [if_neg (by omega : ¬a.epoch ≠ b.epoch), if_neg (by omega : ¬a.vMajor ≠ b.vMajor),
    if_pos (by omega : a.vMinor ≠ b.vMinor)]
  simpa using h

theorem specLt_of_vPatch (a b : EVR) (h0 : a.epoch = b.epoch) (h1 : a.vMajor = b.vMajor)
    (h2 : a.vMinor = b.vMinor) (h : a.vPatch < b.vPatch) : specLt a b = true := by
  unfold specLt
  rw [if_neg (by omega : ¬a.epoch ≠ b.epoch), if_neg (by omega : ¬a.vMajor ≠ b.vMajor),
    if_neg (by omega : ¬a.vMinor ≠ b.vMinor), if_pos (by omega : a.vPatch ≠ b.vPatch)]
  simpa using h

/-! ### The claims -/

/-- Claim C1 (code bug): the stage/major invariant is not what construction
enforces. The release `0.1.alpha` is well formed with release major 0 and
stage `alpha` (second conjunct), so the claim says construction must
succeed; but `parse_release` raises its stage/major `ValueError` anyway,
because it compares `int(major)` against the *string* `'0'` (third
conjunct: that comparison is always unequal), so every alpha/beta/rc
release is rejected no matter what the release major number is. -/
theorem c1_alpha_always_rejected :
    initEVR ("1.2.3".data) ("0.1.alpha".data) none [] = .error .stageMajorError ∧
      releaseMatch ("0.1.alpha".data) = some (0, 1, some ("alpha".data)) ∧
      intNeStrZero 0 = true := by
  decide

/-- Claim C2 (code bug): `__lt__` is not the claimed lexicographic
comparison. `a = EVR('1:1.0.0','1')` and `b = EVR('2.0.0','1')` are both
constructible; the tuple of `a` is `(1,1,0,0,1,0)` and of `b` is
`(2,0,0,1,0)` with epoch 0, so lexicographically `b < a` and not `a < b`
(fourth and fifth conjuncts, via the spec order); but the code's `__lt__`
returns `True` for `a < b` (third conjunct), because its loop returns
`True` as soon as any single component is smaller — here `v_major 1 < 2` —
without first comparing the epochs. -/
theorem c2_lt_not_lexicographic :
    initEVR ("1:1.0.0".data) ("1".data) none [] = .ok evrA ∧
      initEVR ("2.0.0".data) ("1".data) none [] = .ok evrB ∧
      ltEVR evrA evrB = true ∧ specLt evrA evrB = false ∧ specLt evrB evrA = true := by
  decide

/-- Claim C3 (code bug): the comparison is not a strict total order. For the
constructible values `evrA = EVR('1:1.0.0','1')` and
`evrB = EVR('2.0.0','1')`, the code's `__lt__` holds in *both* directions
while `a < a` is false, so the relation is not transitive (transitivity of
`a < b` and `b < a` would force `a < a`) and trichotomy fails for the pair
`(a, b)` against `(b, a)`. -/
theorem c3_lt_not_strict_order :
    ltEVR evrA evrB = true ∧ ltEVR evrB evrA = true ∧ ltEVR evrA evrA = false := by
  decide

/-- Claim C6 (confirmed): the promotion chain for `2.5-release` over the
branch set `{2.5-dev, 2.5-release, 2.6-dev, 2.7-dev, master}` is exactly
the sibling dev branch, the higher same-major dev branches ascending, then
master, all remote-qualified. -/
theorem c6_promotion_chain_example :
    promotionChain ["2.5-dev", "2.5-release", "2.6-dev", "2.7-dev", "master"]
      "2.5-release" none false =
      .ok ["origin/2.5-release", "origin/2.5-dev", "origin/2.6-dev", "origin/2.7-dev",
        "origin/master"] := by
  decide

/-- Claim C7 (code bug): a missing computed `-dev` target does *not* abort
the operation. With branches `{3.0-dev, 3.1-release, 3.2-dev, master}` and
start `3.0-dev`, version `3.1` is a computed target but `3.1-dev` does not
exist; the claim demands a `MissingBranchError`, yet the call succeeds and
returns a chain that routes through the nonexistent `origin/3.1-dev`. The
check in the source is dead code: it diffs `target_branch_versions` against
`all_branches`, two sets of version strings of which the first is a subset
of the second by construction. -/
theorem c7_missing_branch_not_detected :
    promotionChain ["3.0-dev", "3.1-release", "3.2-dev", "master"] "3.0-dev" none false =
      .ok ["origin/3.0-dev", "origin/3.1-dev", "origin/3.2-dev", "origin/master"] := by
  decide

/-- Claim C8 (code bug): a starting reference that does not match the
branch pattern does fail — but not with the claimed `ValidationError`
naming the reference: the source evaluates
`ValueError('...').format(start_ref)`, i.e. calls `.format` on the
exception object, which raises `AttributeError` before any `ValueError`
can be raised, and the offending name never reaches the message. -/
theorem c8_invalid_start_ref_attribute_error :
    promotionChain ["2.5-dev", "master"] "foo" none false = .error .attributeError := by
  decide

/-- Claim C10 (confirmed): `EVR.lowest()` always raises. Its release `'0'`
parses to release major 0 with no minor and no stage (second conjunct), and
`parse_release` rejects a stage-less release with major below 1, so
`EVR('0.0', '0')` raises the GA-major `ValueError` and `lowest()` never
returns a value. -/
theorem c10_lowest_always_raises :
    lowestEVR = .error .gaMajorError ∧ releaseMatch ("0".data) = some (0, 0, none) := by
  decide

/-- Claim C4, counterexample: `'1.2-1'` is of the claimed form
`[epoch:]major.minor[.patch]-release` (the patch is optional), yet
`str(EVR.fromstring('1.2-1'))` is `'1.2.0-1'`, not `'1.2-1'`: the `version`
property always prints the patch component. -/
theorem c4_roundtrip_counterexample :
    (fromstring ("1.2-1".data)).map strEVR = .ok ("1.2.0-1".data) ∧
      ("1.2.0-1".data) ≠ ("1.2-1".data) := by
  decide

/-- Claim C4 (amended): the round-trip holds for the canonical printouts of
well-formed EVRs — strings in which the epoch appears exactly when nonzero,
the patch always appears, the version major is a single digit when no epoch
appears, the release minor appears exactly when it is nonzero or a stage
follows, and the stage (if any) satisfies `stageWF`. For every such EVR,
`EVR.fromstring(str(e))` reconstructs the same fields (commit hash aside)
and therefore `str(EVR.fromstring(s)) == s` for `s = str(e)`. -/
theorem c4_roundtrip_amended (e : EVR) (h : rtWF e) :
    fromstring (strEVR e) = .ok { e with commit := none } ∧
      strEVR { e with commit := none } = strEVR e := by
  obtain ⟨h1, h2⟩ := h
  constructor
  · have hsplit : strEVR e = versionStr e ++ '-' :: releaseStr e := by
      simp [strEVR]
    have hnn := releaseStr_ne_nightly e
    rw [fromstring, hsplit, rsplitLast_append (noDash_releaseStr e h2)]
    simp only [initEVR, hnn, if_false, initParsed, parseVersion_print e h1,
      parseRelease_print e h2]
  · rfl

/-- Witness for the amended C4 at a staged nightly-style EVR: the canonical
string `1.2.3-0.1.n201701021200gitabcdef1` round-trips. -/
theorem c4_roundtrip_amended_witness :
    rtWF ⟨0, 1, 2, 3, 0, 1, some ("n201701021200gitabcdef1".data), none⟩ ∧
      (fromstring (strEVR ⟨0, 1, 2, 3, 0, 1, some ("n201701021200gitabcdef1".data), none⟩) =
          .ok ⟨0, 1, 2, 3, 0, 1, some ("n201701021200gitabcdef1".data), none⟩ ∧
        strEVR (⟨0, 1, 2, 3, 0, 1, some ("n201701021200gitabcdef1".data), none⟩ : EVR) =
          strEVR ⟨0, 1, 2, 3, 0, 1, some ("n201701021200gitabcdef1".data), none⟩) :=
  ⟨by decide,
    c4_roundtrip_amended ⟨0, 1, 2, 3, 0, 1, some ("n201701021200gitabcdef1".data), none⟩
      (by decide)⟩

/-- Claim C5, counterexample: increment is not strictly monotone. For the
constructible GA value `evrGA = EVR('1.2.3', '1')`:
`increment(stage=True)` yields `1.2.3-0.1.alpha`, which is *smaller* — not
greater — both under the code's own `>` (third conjunct) and under the
claimed lexicographic order, which even places it strictly below
(fourth conjunct); and `increment(major=True)` yields `2.0.0-1`, which the
code's `>` also fails to call greater (sixth conjunct), since `__lt__`
sees `v_minor 0 < 2` and declares the incremented value smaller. -/
theorem c5_increment_not_monotone :
    initEVR ("1.2.3".data) ("1".data) none [] = .ok evrGA ∧
      increment evrGA false false false false true none =
        .ok ⟨0, 1, 2, 3, 0, 1, some ("alpha".data), none⟩ ∧
      gtEVR ⟨0, 1, 2, 3, 0, 1, some ("alpha".data), none⟩ evrGA = false ∧
      specLt ⟨0, 1, 2, 3, 0, 1, some ("alpha".data), none⟩ evrGA = true ∧
      increment evrGA true false false false false none = .ok ⟨0, 2, 0, 0, 1, 0, none, none⟩ ∧
      gtEVR ⟨0, 2, 0, 0, 1, 0, none, none⟩ evrGA = false := by
  decide

/-- Claim C5 (amended): increment is strictly monotone — under the
*specified* lexicographic order, not the code's comparison — whenever the
request bumps a version component (major, minor or patch), for every
reparse-stable EVR (increment works on `self.copy()`, a re-parse of the
printed strings) whose stage `next_stage()` can handle when a stage advance
is requested. Pure stage/release requests are excluded: the counterexample
shows `stage=True` on a GA value moves strictly downward. -/
theorem c5_increment_monotone_version_bump (e : EVR) (mj mi pa rl st : Bool)
    (ns : Option (List Char)) (hwf : rtWF e) (hbump : mj = true ∨ mi = true ∨ pa = true)
    (hst : st = true → ns = none → stageKnown e) :
    ∃ e2, increment e mj mi pa rl st ns = .ok e2 ∧ specLt e e2 = true := by
  have hcopy := copyEVR_rt e hwf
  have hsk : st = true → ns = none → stageKnown ({ e with commit := none } : EVR) :=
    fun ha hb => hst ha hb
  obtain ⟨nsv, hns⟩ := incStage_ok { e with commit := none } rl st ns hsk
  refine ⟨incPure { e with commit := none } mj mi pa rl st nsv, ?_, ?_⟩
  · simp only [increment, hcopy, hns, bind, Except.bind, pure, Except.pure]
  · by_cases hmj : mj = true
    · have he : (incPure { e with commit := none } mj mi pa rl st nsv).epoch = e.epoch :=
        incPure_epoch _ _ _ _ _ _ _
      have hv : e.vMajor < (incPure { e with commit := none } mj mi pa rl st nsv).vMajor := by
        rw [incPure_vMajor_bump _ _ _ _ _ _ _ hmj]
        exact Nat.lt_succ_self e.vMajor
      exact specLt_of_vMajor e _ he.symm hv
    · have hmjf : mj = false := by
        cases mj
        · rfl
        · exact absurd rfl hmj
      by_cases hmi : mi = true
      · have he : (incPure { e with commit := none } mj mi pa rl st nsv).epoch = e.epoch :=
          incPure_epoch _ _ _ _ _ _ _
        have hma : (incPure { e with commit := none } mj mi pa rl st nsv).vMajor = e.vMajor :=
          incPure_vMajor_keep _ _ _ _ _ _ _ hmjf
        have hv : e.vMinor < (incPure { e with commit := none } mj mi pa rl st nsv).vMinor := by
          rw [incPure_vMinor_bump _ _ _ _ _ _ _ hmjf hmi]
          exact Nat.lt_succ_self e.vMinor
        exact specLt_of_vMinor e _ he.symm hma.symm hv
      · have hmif : mi = false := by
          cases mi
          · rfl
          · exact absurd rfl hmi
        have hpa : pa = true := by
          rcases hbump with h | h | h
          · exact absurd h hmj
          · exact absurd h hmi
          · exact h
        have he : (incPure { e with commit := none } mj mi pa rl st nsv).epoch = e.epoch :=
          incPure_epoch _ _ _ _ _ _ _
        have hma : (incPure { e with commit := none } mj mi pa rl st nsv).vMajor = e.vMajor :=
          incPure_vMajor_keep _ _ _ _ _ _ _ hmjf
        have hmi2 : (incPure { e with commit := none } mj mi pa rl st nsv).vMinor = e.vMinor :=
          incPure_vMinor_keep _ _ _ _ _ _ _ hmjf hmif
        have hv : e.vPatch < (incPure { e with commit := none } mj mi pa rl st nsv).vPatch := by
          rw [incPure_vPatch_bump _ _ _ _ _ _ _ hmjf hmif hpa]
          exact Nat.lt_succ_self e.vPatch
        exact specLt_of_vPatch e _ he.symm hma.symm hmi2.symm hv

/-- Witness for the amended C5: a minor bump on `EVR('1.2.3', '1')`. -/
theorem c5_increment_monotone_witness :
    rtWF evrGA ∧
      (∃ e2, increment evrGA false true false false false none = .ok e2 ∧
        specLt evrGA e2 = true) :=
  ⟨by decide,
    c5_increment_monotone_version_bump evrGA false true false false false none (by decide)
      (Or.inr (Or.inl rfl)) (fun ha _ => absurd ha (by decide))⟩

theorem digit_ne_newline {x : Char} (h : x.isDigit = true) : x ≠ '\n' := by
  intro he
  rw [he] at h
  exact absurd h (by decide)

/-- Claim C9 (confirmed): constructing with `release='nightly'` and no
commit hash raises the configuration `ValueError`; with a commit hash (and
a digit timestamp, and a 7-character commit prefix free of newlines and not
ending in a dot) construction succeeds with release major 0, release minor
0, the stage `n<buildtime>git<commit[:7]>`, and `nightly_release` true. -/
theorem c9_nightly (ver c bt : List Char) (ep ma mi pa : Nat)
    (hv : parseVersionChars ver = some (ep, ma, mi, pa))
    (hbt : ∀ x ∈ bt, x.isDigit = true)
    (hc7 : ∀ x ∈ c.take 7, x ≠ '\n')
    (hdot : (c.take 7).getLast? ≠ some '.') :
    initEVR ver ("nightly".data) none bt = .error .configError ∧
      initEVR ver ("nightly".data) (some c) bt =
        .ok ⟨ep, ma, mi, pa, 0, 0, some ('n' :: (bt ++ ("git".data) ++ c.take 7)), some c⟩ ∧
      nightlyRel ⟨ep, ma, mi, pa, 0, 0, some ('n' :: (bt ++ ("git".data) ++ c.take 7)),
        some c⟩ = true := by
  have hg : ("git".data) = ['g', 'i', 't'] := by decide
  have h00n : ("0.0.n".data) = ['0', '.', '0', '.', 'n'] := by decide
  have hshape : nightlyStr bt c =
      '0' :: '.' :: '0' :: '.' :: ('n' :: (bt ++ ("git".data) ++ c.take 7)) := by
    simp [nightlyStr, h00n]
  have hulen : 2 ≤ ('n' :: (bt ++ ("git".data) ++ c.take 7)).length := by
    simp [hg]
    omega
  have humem : ∀ x ∈ 'n' :: (bt ++ ("git".data) ++ c.take 7), x ≠ '\n' := by
    intro x hx
    rcases List.mem_cons.mp hx with h1 | h1
    · subst h1
      decide
    · rcases List.mem_append.mp h1 with h2 | h2
      · rcases List.mem_append.mp h2 with h3 | h3
        · exact digit_ne_newline (hbt x h3)
        · rw [hg] at h3
          simp only [List.mem_cons, List.not_mem_nil, or_false] at h3
          rcases h3 with h4 | h4 | h4 <;> (subst h4; decide)
      · exact hc7 x h2
  have hulast : ('n' :: (bt ++ ("git".data) ++ c.take 7)).getLast? ≠ some '.' := by
    cases hc : c.take 7 with
    | nil =>
      have hsh : 'n' :: (bt ++ ("git".data) ++ ([] : List Char)) =
          (('n' :: bt) ++ ['g', 'i']) ++ 't' :: [] := by
        simp [hg]
      rw [hsh, List.getLast?_append_cons]
      decide
    | cons d ds =>
      have hsh : 'n' :: (bt ++ ("git".data) ++ d :: ds) =
          (('n' :: bt) ++ ("git".data)) ++ d :: ds := by
        simp
      rw [hsh, List.getLast?_append_cons, ← hc]
      exact hdot
  have hstage : stageOf ('n' :: (bt ++ ("git".data) ++ c.take 7)) =
      some ('n' :: (bt ++ ("git".data) ++ c.take 7)) :=
    stageOf_self hulen hulast (fun x hx => humem x (List.mem_of_mem_dropLast hx))
  have hd1 : digitRun ('0' :: '.' :: '0' :: '.' :: ('n' :: (bt ++ ("git".data) ++ c.take 7))) =
      (['0'], '.' :: '0' :: '.' :: ('n' :: (bt ++ ("git".data) ++ c.take 7))) := by
    have := digitRun_append (a := ['0'])
      (b := '.' :: '0' :: '.' :: ('n' :: (bt ++ ("git".data) ++ c.take 7)))
      (by
        intro x hx
        rcases List.mem_singleton.mp hx with rfl
        decide)
      (headNotDigit_cons (by decide) _)
    simpa using this
  have hd2 : digitRun ('0' :: '.' :: ('n' :: (bt ++ ("git".data) ++ c.take 7))) =
      (['0'], '.' :: ('n' :: (bt ++ ("git".data) ++ c.take 7))) := by
    have := digitRun_append (a := ['0'])
      (b := '.' :: ('n' :: (bt ++ ("git".data) ++ c.take 7)))
      (by
        intro x hx
        rcases List.mem_singleton.mp hx with rfl
        decide)
      (headNotDigit_cons (by decide) _)
    simpa using this
  have hrm : releaseMatch (nightlyStr bt c) =
      some (0, 0, some ('n' :: (bt ++ ("git".data) ++ c.take 7))) := by
    rw [hshape]
    simp only [releaseMatch, hd1, hd2, hstage, List.isEmpty_cons, Bool.false_eq_true, if_false]
    rfl
  have hnn : nightlyStr bt c ≠ ("nightly".data) := by
    rw [hshape]
    intro hEq
    have hh := congrArg List.head? hEq
    have hh2 : ("nightly".data).head? = some 'n' := by decide
    rw [hh2, List.head?_cons] at hh
    exact absurd (Option.some.inj hh) (by decide)
  have hrel : parseRelease (nightlyStr bt c) =
      .ok (0, 0, some ('n' :: (bt ++ ("git".data) ++ c.take 7))) := by
    rw [parseRelease, if_neg hnn]
    simp only [hrm]
    have htr : optTruthy (some ('n' :: (bt ++ ("git".data) ++ c.take 7))) = true := by
      simp [optTruthy]
    rw [if_pos ⟨htr, rfl⟩, if_neg]
    intro hbad
    rcases hbad with hb | hb | hb <;>
      (have hu := Option.some.inj hb
       have hh := congrArg List.head? hu
       simp only [List.head?_cons] at hh
       exact absurd (Option.some.inj hh) (by decide))
  refine ⟨?_, ?_, ?_⟩
  · simp [initEVR]
  · rw [initEVR, if_pos rfl]
    simp only [initParsed, hv, hrel]
  · rfl

/-- Witness for C9: version `1.2.3`, commit `abcdef1234`, timestamp
`202610120000`. -/
theorem c9_nightly_witness :
    initEVR ("1.2.3".data) ("nightly".data) none ("202610120000".data) =
        .error .configError ∧
      initEVR ("1.2.3".data) ("nightly".data) (some ("abcdef1234".data)) ("202610120000".data) =
        .ok ⟨0, 1, 2, 3, 0, 0,
          some ('n' :: (("202610120000".data) ++ ("git".data) ++ ("abcdef1234".data).take 7)),
          some ("abcdef1234".data)⟩ ∧
      nightlyRel ⟨0, 1, 2, 3, 0, 0,
        some ('n' :: (("202610120000".data) ++ ("git".data) ++ ("abcdef1234".data).take 7)),
        some ("abcdef1234".data)⟩ = true :=
  c9_nightly ("1.2.3".data) ("abcdef1234".data) ("202610120000".data) 0 1 2 3 (by decide)
    (by decide) (by decide) (by decide)

end PulpDev
